import Mathlib

/-!
Shallow embedding of the flex-js lexer core (src/src/Lexer.js) and proofs
about its match selection, scan driver, and action API.

Strings are modeled as `List Char` (`Str`).  The cursor `index` is an `Int`
(a JS number that the code adds to and subtracts from without clamping).
JS `undefined` for the `text` field is modeled by `Option Str`; the JS `+`
coercion by the JS plus operator of `undefined` to the string "undefined" is modeled by
`Option.getD undefinedStr`.  Compiled regexes are modeled as abstract
matchers `Str → Int → Option Str` (the result of `execRegExp`: the matched
substring when the sticky regex matches exactly at the given offset).
The ECHO sink is modeled as a ghost `output` list collecting every string
written by `echo`.
-/

namespace FlexJS

abbrev Str := List Char

/-- JS coercion of `undefined` when concatenated with a string. -/
def undefinedStr : Str := "undefined".toList

/-- JS constant `Lexer.STATE_INITIAL`, the string "INITIAL". -/
def STATE_INITIAL : Str := "INITIAL".toList

/-- JS constant `Lexer.EOF = 0`. -/
def EOFtok : Int := 0

/-- Errors `Lexer.js` can throw at the points our claims exercise. -/
inductive JsErr where
  /-- Thrown by `execRegExp(null)`: setting `lastIndex` on `null` is a `TypeError`. -/
  | typeError
  /-- Thrown by `begin`/`pushState`: state is not registered. -/
  | stateNotRegistered (s : Str)
deriving DecidableEq

/-- JS `source.charAt(i)`: one-character string, or empty when out of range. -/
def charAtI (s : Str) (i : Int) : Str :=
  if 0 ≤ i ∧ i < (s.length : Int) then [s.getD i.toNat ' '] else []

/-- JS `String.prototype.substr(start)` (to end of string). -/
def jsSubstrFrom (s : Str) (start : Int) : Str :=
  if start < 0 then s.drop (max ((s.length : Int) + start) 0).toNat
  else s.drop start.toNat

/-- JS `String.prototype.substr(start, len)`. -/
def jsSubstrLen (s : Str) (start len : Int) : Str :=
  let f : Int := if start < 0 then max ((s.length : Int) + start) 0
                 else min start (s.length : Int)
  let l : Int := min (max len 0) ((s.length : Int) - f)
  (s.drop f.toNat).take l.toNat

/-- A JS value passed where the source expects a string (`unput` does not
check its argument, so any value can arrive and is coerced by `+`). -/
inductive JsVal where
  | str (s : Str)
  | num (n : Int)
  | undef
  | nullv
deriving DecidableEq

/-- JS string coercion of the values above, as performed by `+`. -/
def jsToString : JsVal → Str
  | .str s => s
  | .num n => (toString n).toList
  | .undef => undefinedStr
  | .nullv => "null".toList

/-- The state record built by `addState`: name plus the exclusive flag. -/
structure LexState where
  name : Str
  exclusive : Bool
deriving DecidableEq

/-- The runtime state of the lexer (the fields `reset` initializes), plus the
ghost `output` field collecting every string the ECHO sink receives. -/
structure Runtime where
  source : Str
  index : Int
  text : Option Str
  state : Str
  ruleIndex : Option Nat
  readMore : Bool
  stateStack : List Str
  rejectedRules : List (Option Nat)
  output : List Str
deriving DecidableEq

/-- An abstract compiled matcher: `execRegExp` on a sticky regex, given the
source and the absolute offset, yields the matched substring or nothing. -/
abbrev Matcher := Str → Int → Option Str

/-- A user action: receives the (runtime part of the) lexer, returns the
mutated lexer and its return value (`none` models JS `undefined`). -/
abbrev Action := Runtime → Runtime × Option Int

/-- The rule record built by `addStateRule`. -/
structure Rule where
  expression : Option Matcher
  hasBOL : Bool
  hasEOL : Bool
  isEOF : Bool
  action : Option Action
  fixedWidth : Option Nat

/-- The configuration of the lexer: `states`, `rules` (a map from state name to
its ordered rule list), and the two option flags. -/
structure Config where
  states : List LexState
  rules : List (Str × List Rule)
  ignoreCase : Bool
  debugEnabled : Bool

/-- Own-property lookup in the `states` object: the state records that
were explicitly assigned by `addState`. -/
def lookupState (l : List LexState) (n : Str) : Option LexState :=
  l.find? (fun st => st.name == n)

/-- The inherited enumerable-or-not members of `Object.prototype`: for a
name in this list, `this.states[name]` on the object literal created by
`clear` resolves through the prototype chain to a function (or, for
`__proto__`, an object), which is truthy. -/
def objectProtoKeys : List Str :=
  ["constructor", "hasOwnProperty", "isPrototypeOf",
   "propertyIsEnumerable", "toLocaleString", "toString", "valueOf",
   "__defineGetter__", "__defineSetter__", "__lookupGetter__",
   "__lookupSetter__", "__proto__"].map String.toList

/-- Truthiness of `this.states[name]` as tested by `begin`/`pushState`:
either an own registered state record, or an inherited truthy
`Object.prototype` member reached through the prototype chain. -/
def statesTruthy (l : List LexState) (n : Str) : Bool :=
  (lookupState l n).isSome || objectProtoKeys.contains n

/-- JS object property assignment `this.states[name] = {...}`. -/
def upsertState : List LexState → Str → Bool → List LexState
  | [], n, e => [⟨n, e⟩]
  | st :: rest, n, e =>
      if st.name == n then ⟨n, e⟩ :: rest else st :: upsertState rest n e

/-- Source `Lexer.prototype.addState`: registers the state with no validation of
the name whatsoever. -/
def addState (cfg : Config) (name : Str) (exclusive : Bool) : Config :=
  { cfg with states := upsertState cfg.states name exclusive }

/-- Source `this.rules[this.state] || []`. -/
def lookupRules (l : List (Str × List Rule)) (n : Str) : List Rule :=
  match l.find? (fun p => p.1 == n) with
  | some p => p.2
  | none => []

/-- One character can start a match of `/[a-z_][a-z0-9_-]*\/i`. -/
def isIdStart (c : Char) : Bool :=
  ('a' ≤ c && c ≤ 'z') || ('A' ≤ c && c ≤ 'Z') || c == '_'

/-- Models `this.idRegExp.test(name)`: `RegExp.test` searches anywhere in the
string (it is not anchored), and the tail `[a-z0-9_-]*` may be empty, so a
match exists iff some character of the name is an ASCII letter or `_`. -/
def idTest (s : Str) : Bool := s.any isIdStart

/-- Source `Lexer.prototype.reset`: clears the runtime fields (the ghost
`output` is the history of the external sink, not a field the source
resets). -/
def reset (rt : Runtime) : Runtime :=
  { rt with source := [], index := 0, text := none, state := STATE_INITIAL,
            ruleIndex := none, readMore := false, stateStack := [],
            rejectedRules := [] }

/-- The runtime right after the constructor (`clear` then `reset`). -/
def initialRuntime : Runtime :=
  { source := [], index := 0, text := none, state := STATE_INITIAL,
    ruleIndex := none, readMore := false, stateStack := [],
    rejectedRules := [], output := [] }

/-- The configuration right after `clear()`: the single `INITIAL` state,
no rules, both options off. -/
def clearedConfig : Config :=
  { states := [⟨STATE_INITIAL, false⟩], rules := [],
    ignoreCase := false, debugEnabled := false }

/-- Source `Lexer.prototype.setSource`. -/
def setSource (s : Str) (rt : Runtime) : Runtime :=
  { rt with source := s, index := 0 }

/-- Models `this.text.length` as used by `reject`/`less` (the driver only calls
these with `text` set; `getD` fixes an arbitrary total behavior for the
unreachable `undefined` corner, which JS would turn into a throw). -/
def textLen (t : Option Str) : Int := ((t.getD []).length : Int)

/-- Source `Lexer.prototype.echo`: writes `this.text` to the ECHO sink (modeled
by appending to the ghost `output`). -/
def echo (rt : Runtime) : Runtime :=
  { rt with output := rt.output ++ [rt.text.getD undefinedStr] }

/-- Source `Lexer.prototype.begin` (with the `undefined → INITIAL`
default): the guard is the JS truthiness of `this.states[newState]`,
which also passes for inherited `Object.prototype` member names; only
when it is falsy does `begin` throw, before mutating anything. -/
def begin (cfg : Config) (newState : Option Str) (rt : Runtime) :
    Runtime × Option JsErr :=
  let ns := newState.getD STATE_INITIAL
  if statesTruthy cfg.states ns then ({ rt with state := ns }, none)
  else (rt, some (.stateNotRegistered ns))

/-- Source `Lexer.prototype.pushState`: runs the same truthiness check
first, then pushes the current state and delegates to `begin`. -/
def pushState (cfg : Config) (newState : Str) (rt : Runtime) :
    Runtime × Option JsErr :=
  if statesTruthy cfg.states newState then
    let rt1 := { rt with stateStack := rt.stateStack ++ [rt.state] }
    begin cfg (some newState) rt1
  else (rt, some (.stateNotRegistered newState))

/-- Source `Lexer.prototype.reject`: rewinds the cursor by `text.length` and
records the currently-selected rule index in the rejected list. -/
def reject (rt : Runtime) : Runtime :=
  { rt with index := rt.index - textLen rt.text,
            rejectedRules := rt.rejectedRules ++ [rt.ruleIndex] }

/-- Source `Lexer.prototype.more`. -/
def more (rt : Runtime) : Runtime := { rt with readMore := true }

/-- Source `Lexer.prototype.unput`: splices the (coerced) argument into `source`
at the cursor.  There is no type check and no throw. -/
def unputJ (v : JsVal) (rt : Runtime) : Runtime :=
  { rt with source := jsSubstrLen rt.source 0 rt.index ++ jsToString v ++
                      jsSubstrFrom rt.source rt.index }

/-- Source `Lexer.prototype.terminate`: resets the runtime and returns `EOF`. -/
def terminate (rt : Runtime) : Runtime × Int := (reset rt, EOFtok)

/-- Source `Lexer.prototype.restart`: installs the new source when one is given,
sets the cursor to 0, and touches nothing else. -/
def restart (newSource : Option Str) (rt : Runtime) : Runtime :=
  { rt with source := newSource.getD rt.source, index := 0 }

/-- The local variables of the selection loop: `matchedRule`, `matchedIndex`,
`matchedValue`, `matchedValueLength`. -/
structure Sel where
  matchedRule : Option Rule
  matchedIndex : Option Nat
  matchedValue : Str
  matchedValueLength : Nat

/-- Initial values of the selection loop locals. -/
def initSel : Sel := { matchedRule := none, matchedIndex := none,
                       matchedValue := [], matchedValueLength := 0 }

/-- Value of `curMatchLength` after the two anchor increments: raw match length,
plus one for a `^` anchor, plus one for a `$` anchor. -/
def effLen (r : Rule) (v : Str) : Nat :=
  v.length + (if r.hasBOL then 1 else 0) + (if r.hasEOL then 1 else 0)

/-- The `for (var index in rules)` loop of `scan`, over the index-annotated
rule list.  At EOF the first non-rejected EOF rule is taken and the loop
breaks; otherwise each rule passing the `fixedWidth` pre-filter is run
through `execRegExp` (`.error .typeError` models `execRegExp(null)` when
the null expression of an EOF rule is reached at a non-EOF cursor), and the
best candidate is updated only on a strictly greater effective length. -/
def selStep (isEOF : Bool) (src : Str) (pos : Int)
    (rejected : List (Option Nat)) :
    List (Nat × Rule) → Sel → Except JsErr Sel
  | [], acc => .ok acc
  | (i, rule) :: rest, acc =>
    if rejected.contains (some i) then
      selStep isEOF src pos rejected rest acc
    else if isEOF then
      if rule.isEOF then
        .ok { acc with matchedRule := some rule, matchedIndex := some i,
                       matchedValue := [] }
      else
        selStep isEOF src pos rejected rest acc
    else
      if (match rule.fixedWidth with
          | none => true
          | some w => decide (acc.matchedValueLength < w)) then
        match rule.expression with
        | none => .error .typeError
        | some m =>
          match m src pos with
          | none => selStep isEOF src pos rejected rest acc
          | some v =>
            if acc.matchedValueLength < effLen rule v then
              selStep isEOF src pos rejected rest
                { matchedRule := some rule, matchedIndex := some i,
                  matchedValue := v, matchedValueLength := effLen rule v }
            else
              selStep isEOF src pos rejected rest acc
      else
        selStep isEOF src pos rejected rest acc

/-- Lines 582–584 of `scan`: record `ruleIndex`, resolve the `more()`
carry-over of `text`, drop the `readMore` flag. -/
def carryText (rt : Runtime) (sel : Sel) : Runtime :=
  { rt with ruleIndex := sel.matchedIndex,
            text := if rt.readMore then rt.text else some [],
            readMore := false }

/-- Lines 597–598 of `scan`: `this.text += matchedValue;
this.index += this.text.length` — the cursor advances by the FULL new
text length, including any `more()` carry-over. -/
def matchAdvance (rt1 : Runtime) (v : Str) : Runtime :=
  let newText := rt1.text.getD undefinedStr ++ v
  { rt1 with text := some newText,
             index := rt1.index + (newText.length : Int) }

/-- Source `matchedRule.action ? matchedRule.action(this) : this.discard()`. -/
def actApply (a : Option Action) (rt : Runtime) : Runtime × Option Int :=
  match a with
  | some f => f rt
  | none => (rt, none)

/-- Source `Lexer.prototype.scan`, one pass.  Returns the mutated runtime
and the return value of the pass (`none` = JS `undefined` = keep scanning), or the
thrown error. -/
def scan (cfg : Config) (rt : Runtime) :
    Except JsErr (Runtime × Option Int) :=
  let isEOF : Bool := decide ((rt.source.length : Int) ≤ rt.index)
  let rules := lookupRules cfg.rules rt.state
  match selStep isEOF rt.source rt.index rt.rejectedRules rules.enum
        initSel with
  | .error e => .error e
  | .ok sel =>
    let rt1 := carryText rt sel
    match sel.matchedRule with
    | none =>
      if isEOF then
        let rt2 := { rt1 with text := some [] }
        let p := terminate rt2
        .ok (p.1, some p.2)
      else
        let rt2 := { rt1 with
          text := some (rt1.text.getD undefinedStr ++
                        charAtI rt1.source rt1.index),
          index := rt1.index + 1 }
        .ok (echo rt2, none)
    | some rule =>
      let rt2 := matchAdvance rt1 sel.matchedValue
      let rejectedBefore := rt2.rejectedRules.length
      let p := actApply rule.action rt2
      if rejectedBefore < p.1.rejectedRules.length then
        .ok (p.1, none)
      else
        let rt4 := { p.1 with rejectedRules := [] }
        let isEOF2 : Bool :=
          if isEOF then decide ((rt4.source.length : Int) ≤ rt4.index)
          else false
        if isEOF2 then
          let q := terminate rt4
          .ok (q.1, some q.2)
        else
          .ok (rt4, p.2)

/-- Source `Lexer.prototype.lex` and `lexAll` merged, with a fuel bound on the
total number of `scan` passes (`none` = out of fuel): `lex` loops while
`scan` returns `undefined`; `lexAll` collects the tokens `lex` yields
until it yields `EOF`. -/
def lexAllFuel (cfg : Config) : Nat → Runtime →
    Option (Except JsErr (Runtime × List Int))
  | 0, _ => none
  | n + 1, rt =>
    match scan cfg rt with
    | .error e => some (.error e)
    | .ok (rt', none) => lexAllFuel cfg n rt'
    | .ok (rt', some t) =>
      if t = EOFtok then some (.ok (rt', []))
      else
        match lexAllFuel cfg n rt' with
        | none => none
        | some (.error e) => some (.error e)
        | some (.ok (rtf, ts)) => some (.ok (rtf, t :: ts))

/-- Model of the sticky regex compiled from an escaped string literal
(`escapeRegExp` + the `y` flag): it matches exactly the literal, exactly
at the given offset (a negative `lastIndex` is clamped to 0 by `exec`). -/
def litM (lit : Str) : Matcher := fun src pos =>
  let p : Nat := if pos < 0 then 0 else pos.toNat
  if p ≤ src.length ∧ (src.drop p).take lit.length == lit then some lit
  else none

/-- The characters `escapeRegExp` prefixes with a backslash (the class
of its replacement regex). -/
def regExpMetachars : Str :=
  ['.', '*', '+', '?', '^', '$', '\x7b', '\x7d', '(', ')', '|', '[',
   ']', '\\']

/-- Source `Lexer.prototype.escapeRegExp`: every regex metacharacter is
replaced by its backslash-escaped form. -/
def escapeRegExp (s : Str) : Str :=
  s.flatMap (fun c => if regExpMetachars.contains c then ['\\', c] else [c])

/-- Source `Lexer.prototype.isRegExpMatchBOL`: first character of the
compiled source is a caret (primitive detection). -/
def isRegExpMatchBOL (source : Str) : Bool := source.take 1 == ['^']

/-- Source `Lexer.prototype.isRegExpMatchEOL`: last character of the
compiled source is a dollar (primitive detection).  Note that this also
fires on an ESCAPED trailing dollar, such as the `\$` an escaped string
literal ends in. -/
def isRegExpMatchEOL (source : Str) : Bool := source.getLast? == some '$'

/-- The rule record `addStateRule` builds for a string-literal expression
when no definitions are configured: the compiled source is the escaped
literal, the anchor flags are the primitive first/last-character checks
run on it (so a literal ending in a dollar gets `hasEOL = true`), and
`fixedWidth` is the length of the literal. -/
def litRule (lit : Str) (a : Option Action) : Rule :=
  { expression := some (litM lit),
    hasBOL := isRegExpMatchBOL (escapeRegExp lit),
    hasEOL := isRegExpMatchEOL (escapeRegExp lit),
    isEOF := false, action := a, fixedWidth := some lit.length }

/-- A model of the compiled sticky regex of `/a./`: matches the character
a followed by any one character, exactly at the given offset. -/
def dotM : Matcher := fun src pos =>
  let p : Nat := if pos < 0 then 0 else pos.toNat
  match (src.drop p).take 2 with
  | [c1, c2] => if c1 = 'a' then some [c1, c2] else none
  | _ => none

/-- The rule record `addStateRule` builds for the regex `/a./`: no
anchors, no `fixedWidth`. -/
def dotRule : Rule :=
  { expression := some dotM, hasBOL := false, hasEOL := false,
    isEOF := false, action := none, fixedWidth := none }

/-- The rule record `addStateRule` builds for `Lexer.RULE_EOF`. -/
def eofRule (a : Option Action) : Rule :=
  { expression := none, hasBOL := false, hasEOL := false,
    isEOF := true, action := a, fixedWidth := none }

/-- A sticky regex can only match a substring that starts at the given
offset and lies inside the source. -/
def MatcherSound (m : Matcher) : Prop :=
  ∀ src pos v, 0 ≤ pos → m src pos = some v →
    pos + (v.length : Int) ≤ (src.length : Int)

/-- The hypothesis under which the `fixedWidth` pre-filter of the
selection loop is sound: whenever `fixedWidth` is set, the anchor flags
are unset and every match has exactly length `fixedWidth`.  String
literals whose last character is NOT a dollar satisfy it; a literal
ending in a dollar does NOT — its escaped source still ends in the
dollar character, so `isRegExpMatchEOL` sets `hasEOL = true` while
`fixedWidth` stays set, and the pre-filter can then wrongly skip it
(see the C1 counterexample). -/
def FixedWidthWF (r : Rule) : Prop :=
  ∀ w, r.fixedWidth = some w →
    r.hasBOL = false ∧ r.hasEOL = false ∧
    ∀ m src pos v, r.expression = some m → m src pos = some v →
      v.length = w

/-- The cursor invariant claimed by the spec. -/
def CursorInv (rt : Runtime) : Prop :=
  0 ≤ rt.index ∧ rt.index ≤ (rt.source.length : Int)

/-- Concrete runtime for the C8 counterexample: source "ab", cursor 1. -/
def rtC8 : Runtime := { initialRuntime with source := "ab".toList, index := 1 }

/-- Action `lexer.echo(); lexer.more();` of the more() test in the repository. -/
def megaAct : Action := fun rt => (more (echo rt), none)

/-- Action `lexer.echo();`. -/
def kludgeAct : Action := fun rt => (echo rt, none)

/-- The configuration of the more() test in the repository: rule "mega-" with
`echo(); more();`, rule "kludge" with `echo();`. -/
def cfgMega : Config :=
  { clearedConfig with rules :=
      [(STATE_INITIAL, [litRule "mega-".toList (some megaAct),
                        litRule "kludge".toList (some kludgeAct)])] }

/-- Runtime after `setSource('mega-kludge')`. -/
def rtMega : Runtime := setSource "mega-kludge".toList initialRuntime

/-- Action `lexer.reject();`. -/
def rejAct : Action := fun rt => (reject rt, none)

/-- A single rule "a" whose action always rejects. -/
def cfgRej : Config :=
  { clearedConfig with rules :=
      [(STATE_INITIAL, [litRule "a".toList (some rejAct)])] }

/-- Runtime after `setSource('ab')`. -/
def rtRej : Runtime := setSource "ab".toList initialRuntime

/-- A regex-style rule whose matcher matches the empty string everywhere,
with no anchors; its action would return the token 42 if it ever ran. -/
def zeroRule : Rule :=
  { expression := some (fun _ _ => some []), hasBOL := false,
    hasEOL := false, isEOF := false,
    action := some (fun rt => (rt, some 42)), fixedWidth := none }

def cfgZero : Config :=
  { clearedConfig with rules := [(STATE_INITIAL, [zeroRule])] }

def rtZero : Runtime := setSource "x".toList initialRuntime

/-- Concrete rules for the C1 witness: literal "a" then literal "ab". -/
def c1Rules : List Rule := [litRule "a".toList none, litRule "ab".toList none]

/-- The selection result on source "ab" at cursor 0: rule 1 ("ab"),
effective length 2. -/
def selC1 : Sel :=
  { matchedRule := some (litRule "ab".toList none), matchedIndex := some 1,
    matchedValue := "ab".toList, matchedValueLength := 2 }

/-- The runtime produced by the single default-echo pass on `rtZero`. -/
def rtZeroOut : Runtime :=
  { source := "x".toList, index := 1, text := some ['x'],
    state := STATE_INITIAL, ruleIndex := none, readMore := false,
    stateStack := [], rejectedRules := [], output := [['x']] }

/-- The runtime after pass 1 on `cfgRej`/`rtRej` (match, reject). -/
def rtRej1 : Runtime :=
  { source := "ab".toList, index := 0, text := some ['a'],
    state := STATE_INITIAL, ruleIndex := some 0, readMore := false,
    stateStack := [], rejectedRules := [some 0], output := [] }

/-- The runtime after pass 2 (default echo with a stale rejected set). -/
def rtRej2 : Runtime :=
  { source := "ab".toList, index := 1, text := some ['a'],
    state := STATE_INITIAL, ruleIndex := none, readMore := false,
    stateStack := [], rejectedRules := [some 0], output := [['a']] }

/-- The EOF-rule action of the C4 witness: returns the token 7 (which the
driver must discard in favour of EOF). -/
def act7 : Action := fun rt => (rt, some 7)

def cfgEOF : Config :=
  { clearedConfig with rules := [(STATE_INITIAL, [eofRule (some act7)])] }

/-- Runtime at EOF of source "ab". -/
def rtEOF : Runtime := { setSource "ab".toList initialRuntime with index := 2 }

/-- The selection result at EOF: the first (only) EOF rule. -/
def selEOF : Sel :=
  { matchedRule := some (eofRule (some act7)), matchedIndex := some 0,
    matchedValue := [], matchedValueLength := 0 }

def cfgC2 : Config :=
  { clearedConfig with rules := [(STATE_INITIAL, [litRule "a".toList none])] }

def rtC2 : Runtime := setSource "ab".toList initialRuntime

/-- The runtime after one pass: rule "a" matched, DISCARD action. -/
def rtC2out : Runtime :=
  { source := "ab".toList, index := 1, text := some ['a'],
    state := STATE_INITIAL, ruleIndex := some 0, readMore := false,
    stateStack := [], rejectedRules := [], output := [] }

/-! ## Theorems -/

theorem litM_eq (lit src : Str) (pos : Int) (v : Str)
    (h : litM lit src pos = some v) : v = lit := by
  simp only [litM] at h
  set p : Nat := if pos < 0 then 0 else pos.toNat with hp
  split at h
  · exact (Option.some.inj h).symm
  · exact absurd h (by simp)

theorem litM_sound (lit : Str) : MatcherSound (litM lit) := by
  intro src pos v h0 h
  have hv := litM_eq lit src pos v h
  subst hv
  simp only [litM] at h
  have hneg : ¬ pos < 0 := not_lt.mpr h0
  simp only [hneg, if_false] at h
  split at h
  · rename_i hcond
    obtain ⟨hp, hb⟩ := hcond
    have heq : (src.drop pos.toNat).take v.length = v := beq_iff_eq.mp hb
    have hlen : min v.length (src.length - pos.toNat) = v.length := by
      have := congrArg List.length heq
      simpa [List.length_take, List.length_drop] using this
    have hle : v.length ≤ src.length - pos.toNat := by omega
    have hcast : (pos.toNat : Int) = pos := Int.toNat_of_nonneg h0
    omega
  · exact absurd h (by simp)

theorem litRule_wf (lit : Str) (a : Option Action)
    (hb : (litRule lit a).hasBOL = false)
    (he : (litRule lit a).hasEOL = false) :
    FixedWidthWF (litRule lit a) := by
  intro w hw
  refine ⟨hb, he, ?_⟩
  intro m src pos v hm hv
  have hme : m = litM lit := by
    simp only [litRule, Option.some.injEq] at hm
    exact hm.symm
  subst hme
  have := litM_eq lit src pos v hv
  subst this
  simpa [litRule] using hw

/-- C7: `restart(new_source?)` sets the cursor to 0 and, exactly when a
new source is given, replaces `source` with it (otherwise `source` is
unchanged); every other part of the runtime — active state, state stack,
text, read-more flag, rejected set, selected-rule index and the echo
output — is unchanged.  (`restart` only reads and writes the runtime; the
configuration — states, definitions, rules — is untouched by typing.) -/
theorem c7_restart_frame (ns : Option Str) (rt : Runtime) :
    (restart ns rt).index = 0 ∧
    (restart ns rt).source =
      (match ns with | some s => s | none => rt.source) ∧
    (restart ns rt).text = rt.text ∧
    (restart ns rt).state = rt.state ∧
    (restart ns rt).stateStack = rt.stateStack ∧
    (restart ns rt).readMore = rt.readMore ∧
    (restart ns rt).rejectedRules = rt.rejectedRules ∧
    (restart ns rt).ruleIndex = rt.ruleIndex ∧
    (restart ns rt).output = rt.output := by
  cases ns <;> simp [restart]

/-- C8 counterexample: the claim says `unput` rejects (raises an error
for) every non-string argument, but `Lexer.prototype.unput` contains no
type check at all: called with the number `7` it completes normally and
splices the JS string coercion "7" into the source. -/
theorem c8_counterexample :
    unputJ (.num 7) rtC8 = { initialRuntime with source := "a7b".toList, index := 1 } := by
  decide

/-- C8 amended: `unput(s)` replaces `source` by
`source[0..index) ++ toString(s) ++ source[index..)` (where `toString` is
the JS string coercion, the identity on strings) and leaves the cursor and
every other field unchanged; it performs no type validation and never
raises, for string and non-string arguments alike. -/
theorem c8_unput_splices (v : JsVal) (rt : Runtime)
    (h0 : 0 ≤ rt.index) (h1 : rt.index ≤ (rt.source.length : Int)) :
    unputJ v rt =
      { rt with source := rt.source.take rt.index.toNat ++ jsToString v ++
                          rt.source.drop rt.index.toNat } := by
  unfold unputJ jsSubstrLen jsSubstrFrom
  have hneg : ¬ rt.index < 0 := not_lt.mpr h0
  have hmin : min rt.index (rt.source.length : Int) = rt.index :=
    min_eq_left h1
  have hzero : ¬ (0 : Int) < 0 := by omega
  have hf : min (0 : Int) (rt.source.length : Int) = 0 := by
    have : (0 : Int) ≤ (rt.source.length : Int) := by positivity
    omega
  simp only [hneg, if_false, hzero, hf]
  have hl : min (max rt.index 0) ((rt.source.length : Int) - 0) = rt.index := by
    omega
  simp only [hl, Int.toNat_zero, List.drop_zero]

theorem c8_unput_splices_witness :
    (0 : Int) ≤ rtC8.index ∧ rtC8.index ≤ (rtC8.source.length : Int) ∧
    unputJ (.num 7) rtC8 =
      { rtC8 with source := rtC8.source.take rtC8.index.toNat ++
          jsToString (.num 7) ++ rtC8.source.drop rtC8.index.toNat } :=
  ⟨by decide, by decide,
    c8_unput_splices (.num 7) rtC8 (by decide) (by decide)⟩

/-- C9 counterexample: the name "123" fails the identifier grammar
(`idTest` is false — it has no ASCII letter or underscore, so even the
unanchored `idRegExp.test` fails), yet `addState` registers it without
any error: `addState` performs no name validation at all. -/
theorem c9_counterexample :
    idTest "123".toList = false ∧
    lookupState (addState clearedConfig "123".toList false).states
        "123".toList = some { name := "123".toList, exclusive := false } := by
  constructor
  · decide
  · decide

/-- C9 amended: `addState(name, exclusive)` performs no validation of the
name (only `addDefinition` checks names against the identifier grammar);
it unconditionally registers (or overwrites) the state record for every
name and never raises. -/
theorem c9_addState_no_validation (cfg : Config) (name : Str) (excl : Bool) :
    lookupState (addState cfg name excl).states name =
      some { name := name, exclusive := excl } := by
  unfold addState lookupState
  show List.find? _ (upsertState cfg.states name excl) = _
  induction cfg.states with
  | nil => simp [upsertState]
  | cons st rest ih =>
    unfold upsertState
    by_cases h : st.name == name
    · simp [h]
    · rw [if_neg h]
      rw [List.find?_cons_of_neg _ (by simpa using h)]
      exact ih

/-- C10 counterexample: the claim fails for unregistered names that are
inherited `Object.prototype` members.  With only `INITIAL` registered,
the name "toString" is NOT registered, yet `this.states["toString"]`
resolves through the prototype chain to the inherited (truthy)
`toString` function, so the guard passes: `begin` does NOT throw and
sets the active state to "toString", and `pushState` additionally pushes
the old state onto the stack — the runtime is mutated, no error. -/
theorem c10_counterexample :
    lookupState clearedConfig.states "toString".toList = none ∧
    begin clearedConfig (some "toString".toList) initialRuntime =
      ({ initialRuntime with state := "toString".toList }, none) ∧
    pushState clearedConfig "toString".toList initialRuntime =
      ({ initialRuntime with state := "toString".toList,
                             stateStack := [STATE_INITIAL] }, none) := by
  refine ⟨by decide, by decide, by decide⟩

/-- C10 amended: for every state name that is neither registered nor one
of the inherited `Object.prototype` member names, `begin(s)` and
`pushState(s)` throw a state-not-registered error and return the runtime
exactly as it was — active state, state stack, index, text and source
included — because the guard precedes any mutation.  (For unregistered
names that ARE `Object.prototype` members, such as "constructor" or
"toString", the truthiness guard passes and both calls mutate the state
without error — see the counterexample.) -/
theorem c10_unknown_nonproto_state_noop (cfg : Config) (s : Str)
    (rt : Runtime)
    (hn : lookupState cfg.states s = none)
    (hp : objectProtoKeys.contains s = false) :
    begin cfg (some s) rt = (rt, some (.stateNotRegistered s)) ∧
    pushState cfg s rt = (rt, some (.stateNotRegistered s)) := by
  have ht : statesTruthy cfg.states s = false := by
    unfold statesTruthy
    rw [hn, hp]
    rfl
  unfold begin pushState
  simp [ht]

theorem c10_unknown_nonproto_state_noop_witness :
    lookupState clearedConfig.states "NOPE".toList = none ∧
    objectProtoKeys.contains "NOPE".toList = false ∧
    (begin clearedConfig (some "NOPE".toList) initialRuntime =
        (initialRuntime, some (.stateNotRegistered "NOPE".toList)) ∧
     pushState clearedConfig "NOPE".toList initialRuntime =
        (initialRuntime, some (.stateNotRegistered "NOPE".toList))) :=
  ⟨by decide, by decide,
    c10_unknown_nonproto_state_noop clearedConfig "NOPE".toList
      initialRuntime (by decide) (by decide)⟩

/-- C2 counterexample: on the own more() example of the repository, after the
second scan pass (the one that matches "kludge" with the "mega-" text
carried over) the cursor is 16 while the source has length 11 — the
driver advanced by the full carried-over text length, so the claimed
invariant `index ≤ |source|` is violated. -/
theorem c2_counterexample :
    ((scan cfgMega rtMega).toOption.bind fun p =>
        (scan cfgMega p.1).toOption).map
      (fun p => (p.1.index, (p.1.source.length : Int),
                 decide ((p.1.source.length : Int) < p.1.index)))
    = some (16, 11, true) := by
  decide

/-- C3 counterexample: rule "a" with action `reject()` on source "ab".
Pass 1 matches and rejects (cursor back to 0, rejected set `[0]`).
Pass 2 skips the rejected rule, matches nothing, and the default echo
rule consumes one character — the cursor advances 0 → 1 with no new
reject recorded — yet the rejected set is still `[0]`, not empty: the
no-match path of `scan` never clears `rejectedRules`. -/
theorem c3_counterexample :
    (scan cfgRej rtRej).toOption.map
      (fun p => (p.1.index, p.1.rejectedRules)) = some (0, [some 0]) ∧
    ((scan cfgRej rtRej).toOption.bind fun p =>
        (scan cfgRej p.1).toOption).map
      (fun p => (p.1.index, p.1.rejectedRules, p.2,
                 p.1.output)) = some (1, [some 0], none, [['a']]) := by
  constructor
  · decide
  · decide

/-- C5 counterexample: the only rule of the state matches the zero-length
substring (effective length 0, no anchors) at cursor 0 of source "x", but
the selector does NOT return it: the update condition is the strict
`effective length > current best` with the best initialized to 0 (there
is no "current best is unset" escape), so `matchedIndex` stays `none`,
the action of the rule (which would return 42) never runs, and the scan falls
through to the default echo rule (result `undefined`, cursor 0 → 1, the
character echoed). -/
theorem c5_counterexample :
    zeroRule.expression.map (fun m => m "x".toList 0) = some (some []) ∧
    effLen zeroRule [] = 0 ∧
    (selStep false "x".toList 0 []
        ((lookupRules cfgZero.rules STATE_INITIAL).enum) initSel).map
      Sel.matchedIndex = .ok none ∧
    (scan cfgZero rtZero).toOption.map
      (fun p => (p.2, p.1.index, p.1.output)) = some (none, 1, [['x']]) := by
  refine ⟨rfl, by decide, ?_, by decide⟩
  rfl

theorem selStep_cons_false (src : Str) (pos : Int) (rej : List (Option Nat))
    (n : Nat) (r₀ : Rule) (rest : List (Nat × Rule)) (acc : Sel) :
    selStep false src pos rej ((n, r₀) :: rest) acc =
      if rej.contains (some n) then selStep false src pos rej rest acc
      else if (match r₀.fixedWidth with
               | none => true
               | some w => decide (acc.matchedValueLength < w)) then
        match r₀.expression with
        | none => .error .typeError
        | some m =>
          match m src pos with
          | none => selStep false src pos rej rest acc
          | some v =>
            if acc.matchedValueLength < effLen r₀ v then
              selStep false src pos rej rest
                { matchedRule := some r₀, matchedIndex := some n,
                  matchedValue := v, matchedValueLength := effLen r₀ v }
            else selStep false src pos rej rest acc
      else selStep false src pos rej rest acc := by
  simp only [selStep, Bool.false_eq_true, if_false]

theorem selStep_nil (isEOF : Bool) (src : Str) (pos : Int)
    (rej : List (Option Nat)) (acc : Sel) :
    selStep isEOF src pos rej [] acc = .ok acc := rfl

theorem selStep_cons_true (src : Str) (pos : Int) (rej : List (Option Nat))
    (n : Nat) (r₀ : Rule) (rest : List (Nat × Rule)) (acc : Sel) :
    selStep true src pos rej ((n, r₀) :: rest) acc =
      if rej.contains (some n) then selStep true src pos rej rest acc
      else if r₀.isEOF then
        .ok { acc with matchedRule := some r₀, matchedIndex := some n,
                       matchedValue := [] }
      else selStep true src pos rej rest acc := by
  simp only [selStep, if_true]

/-- Lifting the selection-loop invariant over a head rule that left the
accumulator unchanged: the tail conclusions transfer, given a handler for
the head as a candidate. -/
theorem selStep_consConcl (src : Str) (pos : Int) (rej : List (Option Nat))
    (n : Nat) (r₀ : Rule) (rs' : List Rule) (acc sel : Sel)
    (k1 : acc.matchedValueLength ≤ sel.matchedValueLength)
    (k2 : ∀ r i, sel.matchedRule = some r → sel.matchedIndex = some i →
        effLen r sel.matchedValue = sel.matchedValueLength)
    (k3 : (sel.matchedRule = acc.matchedRule ∧ sel.matchedIndex = acc.matchedIndex ∧
           sel.matchedValue = acc.matchedValue ∧
           sel.matchedValueLength = acc.matchedValueLength) ∨
          (∃ j r m, (j, r) ∈ rs'.enumFrom (n+1) ∧ sel.matchedIndex = some j ∧
             sel.matchedRule = some r ∧ r.expression = some m ∧
             m src pos = some sel.matchedValue ∧
             acc.matchedValueLength < sel.matchedValueLength))
    (k4 : ∀ j r, (j, r) ∈ rs'.enumFrom (n+1) → rej.contains (some j) = false →
        ∀ m v, r.expression = some m → m src pos = some v →
          effLen r v ≤ sel.matchedValueLength ∧
          (effLen r v = sel.matchedValueLength →
            ∀ i, sel.matchedIndex = some i → i ≤ j))
    (hhead : ∀ m v, rej.contains (some n) = false → r₀.expression = some m →
        m src pos = some v →
        effLen r₀ v ≤ sel.matchedValueLength ∧
        (effLen r₀ v = sel.matchedValueLength →
          ∀ i, sel.matchedIndex = some i → i ≤ n)) :
    (acc.matchedValueLength ≤ sel.matchedValueLength) ∧
    (∀ r i, sel.matchedRule = some r → sel.matchedIndex = some i →
       effLen r sel.matchedValue = sel.matchedValueLength) ∧
    ((sel.matchedRule = acc.matchedRule ∧ sel.matchedIndex = acc.matchedIndex ∧
      sel.matchedValue = acc.matchedValue ∧
      sel.matchedValueLength = acc.matchedValueLength) ∨
     (∃ j r m, (j, r) ∈ (r₀ :: rs').enumFrom n ∧ sel.matchedIndex = some j ∧
        sel.matchedRule = some r ∧ r.expression = some m ∧
        m src pos = some sel.matchedValue ∧
        acc.matchedValueLength < sel.matchedValueLength)) ∧
    (∀ j r, (j, r) ∈ (r₀ :: rs').enumFrom n → rej.contains (some j) = false →
       ∀ m v, r.expression = some m → m src pos = some v →
         effLen r v ≤ sel.matchedValueLength ∧
         (effLen r v = sel.matchedValueLength →
           ∀ i, sel.matchedIndex = some i → i ≤ j)) := by
  refine ⟨k1, k2, ?_, ?_⟩
  · rcases k3 with h | ⟨j, r, m, hmem, h⟩
    · exact Or.inl h
    · refine Or.inr ⟨j, r, m, ?_, h⟩
      rw [List.enumFrom_cons]
      exact List.mem_cons_of_mem _ hmem
  · intro j r hmem hjrej m v hm hv
    rw [List.enumFrom_cons, List.mem_cons] at hmem
    rcases hmem with heq | hmem
    · have hj : j = n := congrArg Prod.fst heq
      have hr : r = r₀ := congrArg Prod.snd heq
      subst hj; subst hr
      exact hhead m v hjrej hm hv
    · exact k4 j r hmem hjrej m v hm hv

theorem selStep_false_inv (src : Str) (pos : Int) (rej : List (Option Nat)) :
    ∀ (rs : List Rule) (n : Nat) (acc sel : Sel),
      selStep false src pos rej (rs.enumFrom n) acc = .ok sel →
      (∀ r ∈ rs, FixedWidthWF r) →
      (∀ i, acc.matchedIndex = some i → i < n) →
      (∀ r i, acc.matchedRule = some r → acc.matchedIndex = some i →
         effLen r acc.matchedValue = acc.matchedValueLength) →
      (acc.matchedValueLength ≤ sel.matchedValueLength) ∧
      (∀ r i, sel.matchedRule = some r → sel.matchedIndex = some i →
         effLen r sel.matchedValue = sel.matchedValueLength) ∧
      ((sel.matchedRule = acc.matchedRule ∧ sel.matchedIndex = acc.matchedIndex ∧
        sel.matchedValue = acc.matchedValue ∧
        sel.matchedValueLength = acc.matchedValueLength) ∨
       (∃ j r m, (j, r) ∈ rs.enumFrom n ∧ sel.matchedIndex = some j ∧
          sel.matchedRule = some r ∧ r.expression = some m ∧
          m src pos = some sel.matchedValue ∧
          acc.matchedValueLength < sel.matchedValueLength)) ∧
      (∀ j r, (j, r) ∈ rs.enumFrom n → rej.contains (some j) = false →
         ∀ m v, r.expression = some m → m src pos = some v →
           effLen r v ≤ sel.matchedValueLength ∧
           (effLen r v = sel.matchedValueLength →
             ∀ i, sel.matchedIndex = some i → i ≤ j)) := by
  intro rs
  induction rs with
  | nil =>
    intro n acc sel hsel hwf hidx hlen
    rw [List.enumFrom_nil, selStep_nil] at hsel
    have hacc : acc = sel := by injection hsel
    subst hacc
    refine ⟨le_refl _, hlen, Or.inl ⟨rfl, rfl, rfl, rfl⟩, ?_⟩
    intro j r hmem
    rw [List.enumFrom_nil] at hmem
    exact absurd hmem (List.not_mem_nil _)
  | cons r₀ rs' ih =>
    intro n acc sel hsel hwf hidx hlen
    rw [List.enumFrom_cons, selStep_cons_false] at hsel
    have hwf' : ∀ r ∈ rs', FixedWidthWF r :=
      fun r hr => hwf r (List.mem_cons_of_mem _ hr)
    have hwf₀ : FixedWidthWF r₀ := hwf r₀ (List.mem_cons_self _ _)
    have hidx' : ∀ i, acc.matchedIndex = some i → i < n + 1 :=
      fun i hi => Nat.lt_succ_of_lt (hidx i hi)
    by_cases hrej : rej.contains (some n) = true
    · -- head rejected: recurse with same acc
      rw [if_pos hrej] at hsel
      obtain ⟨k1, k2, k3, k4⟩ := ih (n+1) acc sel hsel hwf' hidx' hlen
      refine selStep_consConcl src pos rej n r₀ rs' acc sel k1 k2 k3 k4 ?_
      intro m v hjrej
      rw [hjrej] at hrej
      exact absurd hrej (by simp)
    · -- head considered
      rw [if_neg hrej] at hsel
      by_cases hgd : (match r₀.fixedWidth with
          | none => true
          | some w => decide (acc.matchedValueLength < w)) = true
      · -- pre-filter passed: the matcher is evaluated
        rw [if_pos hgd] at hsel
        cases hexp : r₀.expression with
        | none =>
          simp only [hexp] at hsel
          exact absurd hsel (by simp)
        | some m =>
          simp only [hexp] at hsel
          cases hmv : m src pos with
          | none =>
            simp only [hmv] at hsel
            obtain ⟨k1, k2, k3, k4⟩ := ih (n+1) acc sel hsel hwf' hidx' hlen
            refine selStep_consConcl src pos rej n r₀ rs' acc sel k1 k2 k3 k4 ?_
            intro m' v hjrej hm' hv'
            have hmm : m' = m := by
              rw [hexp] at hm'
              exact (Option.some.inj hm').symm
            subst hmm
            rw [hmv] at hv'
            exact absurd hv' (by simp)
          | some v =>
            simp only [hmv] at hsel
            by_cases hup : acc.matchedValueLength < effLen r₀ v
            · -- strict improvement: the accumulator is updated to the head
              rw [if_pos hup] at hsel
              have hidx'' : ∀ i,
                  (⟨some r₀, some n, v, effLen r₀ v⟩ : Sel).matchedIndex = some i →
                  i < n + 1 := by
                intro i hi
                have hni : n = i := Option.some.inj hi
                omega
              have hlen'' : ∀ r i,
                  (⟨some r₀, some n, v, effLen r₀ v⟩ : Sel).matchedRule = some r →
                  (⟨some r₀, some n, v, effLen r₀ v⟩ : Sel).matchedIndex = some i →
                  effLen r (⟨some r₀, some n, v, effLen r₀ v⟩ : Sel).matchedValue =
                    (⟨some r₀, some n, v, effLen r₀ v⟩ : Sel).matchedValueLength := by
                intro r i hr hi
                have hrr : r₀ = r := Option.some.inj hr
                subst hrr
                rfl
              obtain ⟨k1, k2, k3, k4⟩ :=
                ih (n+1) ⟨some r₀, some n, v, effLen r₀ v⟩ sel hsel hwf' hidx'' hlen''
              refine ⟨?_, k2, ?_, ?_⟩
              · exact le_trans (le_of_lt hup) k1
              · -- the final choice either is the head itself or improves on it
                rcases k3 with ⟨h1, h2, h3, h4⟩ | ⟨j, r, m', hmem, h1, h2, h3, h4, h5⟩
                · refine Or.inr ⟨n, r₀, m, ?_, ?_, ?_, hexp, ?_, ?_⟩
                  · rw [List.enumFrom_cons]
                    exact List.mem_cons_self _ _
                  · rw [h2]
                  · rw [h1]
                  · rw [h3, hmv]
                  · rw [h4]; exact hup
                · refine Or.inr ⟨j, r, m', ?_, h1, h2, h3, h4, ?_⟩
                  · rw [List.enumFrom_cons]
                    exact List.mem_cons_of_mem _ hmem
                  · exact lt_trans hup h5
              · intro j r hmem hjrej m' v' hm' hv'
                rw [List.enumFrom_cons, List.mem_cons] at hmem
                rcases hmem with heq | hmem
                · have hj : j = n := congrArg Prod.fst heq
                  have hr : r = r₀ := congrArg Prod.snd heq
                  subst hj; subst hr
                  have hmm : m' = m := by
                    rw [hexp] at hm'
                    exact (Option.some.inj hm').symm
                  subst hmm
                  have hvv : v' = v := by
                    rw [hmv] at hv'
                    exact (Option.some.inj hv').symm
                  subst hvv
                  refine ⟨k1, ?_⟩
                  intro htie i hi
                  rcases k3 with ⟨h1, h2, h3, h4⟩ | ⟨j', r', m'', hmem', h1, h2, h3, h4, h5⟩
                  · rw [h2] at hi
                    have hni := Option.some.inj hi
                    omega
                  · rw [← htie] at h5
                    exact absurd h5 (lt_irrefl _)
                · exact k4 j r hmem hjrej m' v' hm' hv'
            · -- no improvement: recurse with the old accumulator
              rw [if_neg hup] at hsel
              obtain ⟨k1, k2, k3, k4⟩ := ih (n+1) acc sel hsel hwf' hidx' hlen
              have hle : effLen r₀ v ≤ acc.matchedValueLength := not_lt.mp hup
              refine selStep_consConcl src pos rej n r₀ rs' acc sel k1 k2 k3 k4 ?_
              intro m' v' hjrej hm' hv'
              have hmm : m' = m := by
                rw [hexp] at hm'
                exact (Option.some.inj hm').symm
              subst hmm
              have hvv : v' = v := by
                rw [hmv] at hv'
                exact (Option.some.inj hv').symm
              subst hvv
              refine ⟨le_trans hle k1, ?_⟩
              intro htie i hi
              have heq' : acc.matchedValueLength = sel.matchedValueLength := by
                omega
              rcases k3 with ⟨h1, h2, h3, h4⟩ | ⟨j', r', m'', hmem', h1, h2, h3, h4, h5⟩
              · rw [h2] at hi
                exact le_of_lt (hidx i hi)
              · rw [heq'] at h5
                exact absurd h5 (lt_irrefl _)
      · -- pre-filter failed: fixedWidth is set and cannot beat the best
        rw [if_neg hgd] at hsel
        obtain ⟨w, hfw, hwle⟩ : ∃ w, r₀.fixedWidth = some w ∧
            w ≤ acc.matchedValueLength := by
          cases hfw' : r₀.fixedWidth with
          | none =>
            rw [hfw'] at hgd
            exact absurd rfl hgd
          | some w =>
            rw [hfw'] at hgd
            refine ⟨w, rfl, ?_⟩
            by_cases h : acc.matchedValueLength < w
            · exact absurd (by simpa using h) hgd
            · exact not_lt.mp h
        obtain ⟨k1, k2, k3, k4⟩ := ih (n+1) acc sel hsel hwf' hidx' hlen
        refine selStep_consConcl src pos rej n r₀ rs' acc sel k1 k2 k3 k4 ?_
        intro m' v' hjrej hm' hv'
        obtain ⟨hbol, heol, hfixlen⟩ := hwf₀ w hfw
        have hvlen : v'.length = w := hfixlen m' src pos v' hm' hv'
        have heff : effLen r₀ v' = w := by
          simp [effLen, hbol, heol, hvlen]
        rw [heff]
        refine ⟨le_trans hwle k1, ?_⟩
        intro htie i hi
        have heq' : acc.matchedValueLength = sel.matchedValueLength := by
          omega
        rcases k3 with ⟨h1, h2, h3, h4⟩ | ⟨j', r', m'', hmem', h1, h2, h3, h4, h5⟩
        · rw [h2] at hi
          exact le_of_lt (hidx i hi)
        · rw [heq'] at h5
          exact absurd h5 (lt_irrefl _)

theorem selStep_true_cases (src : Str) (pos : Int) (rej : List (Option Nat)) :
    ∀ (l : List (Nat × Rule)) (acc sel : Sel),
      selStep true src pos rej l acc = .ok sel →
      sel = acc ∨ ∃ p ∈ l, p.2.isEOF = true ∧
        sel = { acc with matchedRule := some p.2, matchedIndex := some p.1,
                         matchedValue := [] } := by
  intro l
  induction l with
  | nil =>
    intro acc sel hsel
    rw [selStep_nil] at hsel
    have hacc : acc = sel := by injection hsel
    exact Or.inl hacc.symm
  | cons p rest ih =>
    intro acc sel hsel
    obtain ⟨n, r₀⟩ := p
    rw [selStep_cons_true] at hsel
    by_cases hrej : rej.contains (some n) = true
    · rw [if_pos hrej] at hsel
      rcases ih acc sel hsel with h | ⟨q, hq, hqe, h⟩
      · exact Or.inl h
      · exact Or.inr ⟨q, List.mem_cons_of_mem _ hq, hqe, h⟩
    · rw [if_neg hrej] at hsel
      by_cases hEOF : r₀.isEOF = true
      · rw [if_pos hEOF] at hsel
        exact Or.inr ⟨(n, r₀), List.mem_cons_self _ _, hEOF,
          (Except.ok.inj hsel).symm⟩
      · rw [if_neg hEOF] at hsel
        rcases ih acc sel hsel with h | ⟨q, hq, hqe, h⟩
        · exact Or.inl h
        · exact Or.inr ⟨q, List.mem_cons_of_mem _ hq, hqe, h⟩

theorem selStep_zero (src : Str) (pos : Int) (rej : List (Option Nat)) :
    ∀ (l : List (Nat × Rule)) (acc : Sel),
      (∀ p ∈ l, p.2.hasBOL = false ∧ p.2.hasEOL = false ∧
         ∃ m, p.2.expression = some m ∧
           ∀ v, m src pos = some v → v = []) →
      selStep false src pos rej l acc = .ok acc := by
  intro l
  induction l with
  | nil =>
    intro acc _
    exact selStep_nil false src pos rej acc
  | cons p rest ih =>
    intro acc hz
    obtain ⟨n, r₀⟩ := p
    obtain ⟨hbol, heol, m, hm, hmv⟩ := hz (n, r₀) (List.mem_cons_self _ _)
    replace hbol : r₀.hasBOL = false := hbol
    replace heol : r₀.hasEOL = false := heol
    replace hm : r₀.expression = some m := hm
    have hz' : ∀ p ∈ rest, p.2.hasBOL = false ∧ p.2.hasEOL = false ∧
        ∃ m, p.2.expression = some m ∧ ∀ v, m src pos = some v → v = [] :=
      fun p hp => hz p (List.mem_cons_of_mem _ hp)
    rw [selStep_cons_false]
    by_cases hrej : rej.contains (some n) = true
    · rw [if_pos hrej]
      exact ih acc hz'
    · rw [if_neg hrej]
      by_cases hgd : (match r₀.fixedWidth with
          | none => true
          | some w => decide (acc.matchedValueLength < w)) = true
      · rw [if_pos hgd]
        simp only [hm]
        cases hcase : m src pos with
        | none =>
          exact ih acc hz'
        | some v =>
          have hv : v = [] := hmv v hcase
          subst hv
          have hnlt : ¬ acc.matchedValueLength < effLen r₀ [] := by
            simp [effLen, hbol, heol]
          show (if acc.matchedValueLength < effLen r₀ [] then
              selStep false src pos rej rest
                { matchedRule := some r₀, matchedIndex := some n,
                  matchedValue := [], matchedValueLength := effLen r₀ [] }
            else selStep false src pos rej rest acc) = .ok acc
          rw [if_neg hnlt]
          exact ih acc hz'
      · rw [if_neg hgd]
        exact ih acc hz'

/-- C1 counterexample: the longest-effective-length claim fails on rules
the code actually builds.  With rules `[/a./, "a$"]` on source "a$x" at
cursor 0 with nothing rejected, the selector returns rule 0 (`/a./`)
with effective length 2; but the non-rejected non-EOF rule 1 (the
literal "a$") matches "a$" at that cursor with effective length 3 (raw
2 plus the `hasEOL` bonus the escaped trailing dollar earns it) — it is
never evaluated because the pre-filter skips it: `fixedWidth (2) >
best (2)` is false.  So the chosen effective length 2 is NOT ≥ the
candidate effective length 3. -/
theorem c1_counterexample :
    (selStep false "a$x".toList 0 []
        ([dotRule, litRule "a$".toList none].enum) initSel).toOption.map
      (fun s => (s.matchedIndex, s.matchedValueLength))
      = some (some 0, 2) ∧
    (litRule "a$".toList none).isEOF = false ∧
    (litRule "a$".toList none).expression = some (litM "a$".toList) ∧
    litM "a$".toList "a$x".toList 0 = some "a$".toList ∧
    effLen (litRule "a$".toList none) "a$".toList = 3 ∧
    ¬ (effLen (litRule "a$".toList none) "a$".toList ≤ 2) := by
  refine ⟨by decide, rfl, rfl, by decide, by decide, by decide⟩

/-- C1 amended: at a cursor that is not at end of input, the rule
returned by the match selector has effective length (raw match length,
plus one per `^` or `$` anchor) at least that of every other
non-rejected non-EOF rule of the active state that matches at that
cursor, and among candidates of equal effective length the
earliest-registered rule is chosen — PROVIDED no rule of the state
combines a set `fixedWidth` with an anchor flag (in the source: no
string-literal pattern ends in a dollar).  Without that proviso the
property fails: the `fixedWidth > best` pre-filter skips a literal
whose anchor bonus would beat the current best (see the
counterexample). -/
theorem c1_selector_longest_first (src : Str) (pos : Int)
    (rej : List (Option Nat)) (rules : List Rule)
    (hwf : ∀ r ∈ rules, FixedWidthWF r) (sel : Sel) (r : Rule) (i : Nat)
    (hsel : selStep false src pos rej rules.enum initSel = .ok sel)
    (hr : sel.matchedRule = some r) (hi : sel.matchedIndex = some i) :
    effLen r sel.matchedValue = sel.matchedValueLength ∧
    ∀ j r', (j, r') ∈ rules.enum → rej.contains (some j) = false →
      r'.isEOF = false → ∀ m v, r'.expression = some m → m src pos = some v →
        effLen r' v ≤ sel.matchedValueLength ∧
        (effLen r' v = sel.matchedValueLength → i ≤ j) := by
  have henum : rules.enum = rules.enumFrom 0 := rfl
  rw [henum] at hsel
  obtain ⟨k1, k2, k3, k4⟩ :=
    selStep_false_inv src pos rej rules 0 initSel sel hsel hwf
      (by intro i' hi'; simp [initSel] at hi')
      (by intro r' i' hr' hi'; simp [initSel] at hi')
  refine ⟨k2 r i hr hi, ?_⟩
  intro j r' hmem hjrej hEOF m v hm hv
  rw [henum] at hmem
  obtain ⟨h1, h2⟩ := k4 j r' hmem hjrej m v hm hv
  exact ⟨h1, fun htie => h2 htie i hi⟩

theorem c1_selector_longest_first_witness :
    (∀ r ∈ c1Rules, FixedWidthWF r) ∧
    selStep false "ab".toList 0 [] c1Rules.enum initSel = .ok selC1 ∧
    selC1.matchedRule = some (litRule "ab".toList none) ∧
    selC1.matchedIndex = some 1 ∧
    (effLen (litRule "ab".toList none) selC1.matchedValue =
        selC1.matchedValueLength ∧
     ∀ j r', (j, r') ∈ c1Rules.enum →
       ([] : List (Option Nat)).contains (some j) = false →
       r'.isEOF = false → ∀ m v, r'.expression = some m →
         m "ab".toList 0 = some v →
         effLen r' v ≤ selC1.matchedValueLength ∧
         (effLen r' v = selC1.matchedValueLength → 1 ≤ j)) := by
  have hwf : ∀ r ∈ c1Rules, FixedWidthWF r := by
    intro r hr
    simp only [c1Rules, List.mem_cons, List.not_mem_nil, or_false] at hr
    rcases hr with rfl | rfl
    · exact litRule_wf _ _ rfl rfl
    · exact litRule_wf _ _ rfl rfl
  exact ⟨hwf, rfl, rfl, rfl,
    c1_selector_longest_first "ab".toList 0 [] c1Rules hwf selC1
      (litRule "ab".toList none) 1 rfl rfl rfl⟩

theorem scan_nomatch (cfg : Config) (rt : Runtime) (sel : Sel)
    (hsel : selStep (decide ((rt.source.length : Int) ≤ rt.index)) rt.source
        rt.index rt.rejectedRules (lookupRules cfg.rules rt.state).enum
        initSel = .ok sel)
    (hmr : sel.matchedRule = none) :
    scan cfg rt =
      (if decide ((rt.source.length : Int) ≤ rt.index) then
         .ok ((terminate { carryText rt sel with text := some [] }).1,
              some (terminate { carryText rt sel with text := some [] }).2)
       else
         .ok (echo { carryText rt sel with
                text := some ((carryText rt sel).text.getD undefinedStr ++
                        charAtI (carryText rt sel).source
                          (carryText rt sel).index),
                index := (carryText rt sel).index + 1 }, none)) := by
  simp only [scan, hsel, hmr]

theorem snd_mem_of_mem_enum {α : Type} (l : List α) (p : Nat × α)
    (hp : p ∈ l.enum) : p.2 ∈ l := by
  obtain ⟨i, x⟩ := p
  have h := List.mem_enumFrom (show (i, x) ∈ List.enumFrom 0 l from hp)
  obtain ⟨-, h2, h3⟩ := h
  rw [h3]
  exact List.getElem_mem _

/-- C5 amended: during selection a candidate is taken only when its
effective length strictly exceeds the current best, and the best starts
at 0 (there is no "current best is unset" escape); consequently, when
every rule of the active state matches only zero-length substrings with
no anchors, the selector returns no rule at all and the scan pass falls
through to the default echo rule: result `undefined`, cursor advanced by
one, the skipped character echoed, the rejected set untouched. -/
theorem c5_zero_length_never_selected (cfg : Config) (rt rt' : Runtime)
    (res : Option Int)
    (hne : ¬ ((rt.source.length : Int) ≤ rt.index))
    (hrm : rt.readMore = false)
    (hz : ∀ r ∈ lookupRules cfg.rules rt.state,
        r.hasBOL = false ∧ r.hasEOL = false ∧
        ∃ m, r.expression = some m ∧
          ∀ v, m rt.source rt.index = some v → v = [])
    (hscan : scan cfg rt = .ok (rt', res)) :
    (selStep false rt.source rt.index rt.rejectedRules
        (lookupRules cfg.rules rt.state).enum initSel).map Sel.matchedIndex
      = .ok none ∧
    res = none ∧ rt'.index = rt.index + 1 ∧
    rt'.rejectedRules = rt.rejectedRules ∧
    rt'.output = rt.output ++ [charAtI rt.source rt.index] := by
  have hd : decide ((rt.source.length : Int) ≤ rt.index) = false :=
    decide_eq_false hne
  have hz' : ∀ p ∈ (lookupRules cfg.rules rt.state).enum,
      p.2.hasBOL = false ∧ p.2.hasEOL = false ∧
      ∃ m, p.2.expression = some m ∧
        ∀ v, m rt.source rt.index = some v → v = [] := by
    intro p hp
    exact hz p.2 (snd_mem_of_mem_enum _ p hp)
  have hsel : selStep false rt.source rt.index rt.rejectedRules
      (lookupRules cfg.rules rt.state).enum initSel = .ok initSel :=
    selStep_zero rt.source rt.index rt.rejectedRules _ initSel hz'
  have hsel' : selStep (decide ((rt.source.length : Int) ≤ rt.index))
      rt.source rt.index rt.rejectedRules
      (lookupRules cfg.rules rt.state).enum initSel = .ok initSel := by
    rw [hd]; exact hsel
  have hscan2 := scan_nomatch cfg rt initSel hsel' rfl
  rw [hd] at hscan2
  simp only [Bool.false_eq_true, if_false] at hscan2
  rw [hscan] at hscan2
  have h1 : rt' = echo { carryText rt initSel with
      text := some ((carryText rt initSel).text.getD undefinedStr ++
              charAtI (carryText rt initSel).source
                (carryText rt initSel).index),
      index := (carryText rt initSel).index + 1 } := by
    injection (Except.ok.inj hscan2) with h1 h2
  have h2 : res = none := by
    injection (Except.ok.inj hscan2) with h1' h2'
  refine ⟨by rw [hsel]; rfl, h2, ?_, ?_, ?_⟩
  · rw [h1]
    simp [echo, carryText]
  · rw [h1]
    simp [echo, carryText]
  · rw [h1]
    simp [echo, carryText, hrm]

theorem c5_zero_length_never_selected_witness :
    (¬ ((rtZero.source.length : Int) ≤ rtZero.index)) ∧
    rtZero.readMore = false ∧
    (∀ r ∈ lookupRules cfgZero.rules rtZero.state,
        r.hasBOL = false ∧ r.hasEOL = false ∧
        ∃ m, r.expression = some m ∧
          ∀ v, m rtZero.source rtZero.index = some v → v = []) ∧
    scan cfgZero rtZero = .ok (rtZeroOut, none) ∧
    ((selStep false rtZero.source rtZero.index rtZero.rejectedRules
        (lookupRules cfgZero.rules rtZero.state).enum initSel).map
          Sel.matchedIndex = .ok none ∧
     (none : Option Int) = none ∧ rtZeroOut.index = rtZero.index + 1 ∧
     rtZeroOut.rejectedRules = rtZero.rejectedRules ∧
     rtZeroOut.output = rtZero.output ++
       [charAtI rtZero.source rtZero.index]) := by
  have hz : ∀ r ∈ lookupRules cfgZero.rules rtZero.state,
      r.hasBOL = false ∧ r.hasEOL = false ∧
      ∃ m, r.expression = some m ∧
        ∀ v, m rtZero.source rtZero.index = some v → v = [] := by
    intro r hr
    replace hr : r ∈ [zeroRule] := hr
    have hre : r = zeroRule := List.mem_singleton.mp hr
    subst hre
    exact ⟨rfl, rfl, fun _ _ => some [], rfl,
      fun v hv => (Option.some.inj hv).symm⟩
  exact ⟨by decide, rfl, hz, rfl,
    c5_zero_length_never_selected cfgZero rtZero rtZeroOut none
      (by decide) rfl hz rfl⟩

theorem scan_matched_rejected (cfg : Config) (rt : Runtime) (sel : Sel)
    (rule : Rule) (b : Bool)
    (hb : decide ((rt.source.length : Int) ≤ rt.index) = b)
    (hsel : selStep b rt.source rt.index rt.rejectedRules
        (lookupRules cfg.rules rt.state).enum initSel = .ok sel)
    (hmr : sel.matchedRule = some rule)
    (hrej : (matchAdvance (carryText rt sel)
        sel.matchedValue).rejectedRules.length <
      (actApply rule.action (matchAdvance (carryText rt sel)
        sel.matchedValue)).1.rejectedRules.length) :
    scan cfg rt = .ok ((actApply rule.action
      (matchAdvance (carryText rt sel) sel.matchedValue)).1, none) := by
  simp only [scan, hb, hsel, hmr, hrej, if_true]

theorem scan_matched_noreject_notEOF (cfg : Config) (rt : Runtime)
    (sel : Sel) (rule : Rule)
    (hb : decide ((rt.source.length : Int) ≤ rt.index) = false)
    (hsel : selStep false rt.source rt.index rt.rejectedRules
        (lookupRules cfg.rules rt.state).enum initSel = .ok sel)
    (hmr : sel.matchedRule = some rule)
    (hna : ¬ ((matchAdvance (carryText rt sel)
        sel.matchedValue).rejectedRules.length <
      (actApply rule.action (matchAdvance (carryText rt sel)
        sel.matchedValue)).1.rejectedRules.length)) :
    scan cfg rt = .ok ({ (actApply rule.action
        (matchAdvance (carryText rt sel) sel.matchedValue)).1 with
          rejectedRules := [] },
      (actApply rule.action
        (matchAdvance (carryText rt sel) sel.matchedValue)).2) := by
  simp only [scan, hb, hsel, hmr, hna, if_false, Bool.false_eq_true]

theorem scan_matched_noreject_EOF_stillEOF (cfg : Config) (rt : Runtime)
    (sel : Sel) (rule : Rule)
    (hb : decide ((rt.source.length : Int) ≤ rt.index) = true)
    (hsel : selStep true rt.source rt.index rt.rejectedRules
        (lookupRules cfg.rules rt.state).enum initSel = .ok sel)
    (hmr : sel.matchedRule = some rule)
    (hna : ¬ ((matchAdvance (carryText rt sel)
        sel.matchedValue).rejectedRules.length <
      (actApply rule.action (matchAdvance (carryText rt sel)
        sel.matchedValue)).1.rejectedRules.length))
    (hpost : decide (((actApply rule.action (matchAdvance (carryText rt sel)
        sel.matchedValue)).1.source.length : Int) ≤
      (actApply rule.action (matchAdvance (carryText rt sel)
        sel.matchedValue)).1.index) = true) :
    scan cfg rt = .ok (reset { (actApply rule.action
        (matchAdvance (carryText rt sel) sel.matchedValue)).1 with
          rejectedRules := [] }, some EOFtok) := by
  simp only [scan, hb, hsel, hmr, hna, if_false, if_true, hpost, terminate]

theorem scan_matched_noreject_EOF_refilled (cfg : Config) (rt : Runtime)
    (sel : Sel) (rule : Rule)
    (hb : decide ((rt.source.length : Int) ≤ rt.index) = true)
    (hsel : selStep true rt.source rt.index rt.rejectedRules
        (lookupRules cfg.rules rt.state).enum initSel = .ok sel)
    (hmr : sel.matchedRule = some rule)
    (hna : ¬ ((matchAdvance (carryText rt sel)
        sel.matchedValue).rejectedRules.length <
      (actApply rule.action (matchAdvance (carryText rt sel)
        sel.matchedValue)).1.rejectedRules.length))
    (hpost : decide (((actApply rule.action (matchAdvance (carryText rt sel)
        sel.matchedValue)).1.source.length : Int) ≤
      (actApply rule.action (matchAdvance (carryText rt sel)
        sel.matchedValue)).1.index) = false) :
    scan cfg rt = .ok ({ (actApply rule.action
        (matchAdvance (carryText rt sel) sel.matchedValue)).1 with
          rejectedRules := [] },
      (actApply rule.action
        (matchAdvance (carryText rt sel) sel.matchedValue)).2) := by
  simp only [scan, hb, hsel, hmr, hna, if_false, if_true, hpost,
    Bool.false_eq_true]

theorem scan_nomatch_EOF (cfg : Config) (rt : Runtime) (sel : Sel)
    (hb : decide ((rt.source.length : Int) ≤ rt.index) = true)
    (hsel : selStep true rt.source rt.index rt.rejectedRules
        (lookupRules cfg.rules rt.state).enum initSel = .ok sel)
    (hmr : sel.matchedRule = none) :
    scan cfg rt = .ok (reset { carryText rt sel with text := some [] },
      some EOFtok) := by
  simp only [scan, hb, hsel, hmr, if_true, terminate]

theorem scan_nomatch_notEOF (cfg : Config) (rt : Runtime) (sel : Sel)
    (hb : decide ((rt.source.length : Int) ≤ rt.index) = false)
    (hsel : selStep false rt.source rt.index rt.rejectedRules
        (lookupRules cfg.rules rt.state).enum initSel = .ok sel)
    (hmr : sel.matchedRule = none) :
    scan cfg rt = .ok (echo { carryText rt sel with
        text := some ((carryText rt sel).text.getD undefinedStr ++
                charAtI (carryText rt sel).source (carryText rt sel).index),
        index := (carryText rt sel).index + 1 }, none) := by
  simp only [scan, hb, hsel, hmr, if_false, Bool.false_eq_true]

/-- C3 amended: the rejected set is cleared when a scan pass matches a
rule whose action records no new reject; but in the pass where no rule
matches at a non-EOF cursor, the default echo rule advances the cursor by
one WITHOUT touching the rejected set — the set is left exactly as it
was (possibly non-empty), not cleared. -/
theorem c3_rejected_set_clearing (cfg : Config) (rt rt' : Runtime)
    (res : Option Int) (sel : Sel)
    (hsel : selStep (decide ((rt.source.length : Int) ≤ rt.index)) rt.source
        rt.index rt.rejectedRules (lookupRules cfg.rules rt.state).enum
        initSel = .ok sel)
    (hscan : scan cfg rt = .ok (rt', res)) :
    (∀ rule, sel.matchedRule = some rule →
       ¬ ((matchAdvance (carryText rt sel)
            sel.matchedValue).rejectedRules.length <
          (actApply rule.action
            (matchAdvance (carryText rt sel)
              sel.matchedValue)).1.rejectedRules.length) →
       rt'.rejectedRules = []) ∧
    (sel.matchedRule = none → ¬ ((rt.source.length : Int) ≤ rt.index) →
       rt'.rejectedRules = rt.rejectedRules ∧ rt'.index = rt.index + 1) := by
  constructor
  · intro rule hmr hna
    cases hbv : decide ((rt.source.length : Int) ≤ rt.index) with
    | false =>
      rw [hbv] at hsel
      have h := scan_matched_noreject_notEOF cfg rt sel rule hbv hsel hmr hna
      rw [hscan] at h
      obtain ⟨h1, h2⟩ := Prod.mk.inj (Except.ok.inj h)
      rw [h1]
    | true =>
      rw [hbv] at hsel
      cases hpv : decide (((actApply rule.action (matchAdvance
          (carryText rt sel) sel.matchedValue)).1.source.length : Int) ≤
          (actApply rule.action (matchAdvance (carryText rt sel)
            sel.matchedValue)).1.index) with
      | false =>
        have h := scan_matched_noreject_EOF_refilled cfg rt sel rule hbv
          hsel hmr hna hpv
        rw [hscan] at h
        obtain ⟨h1, h2⟩ := Prod.mk.inj (Except.ok.inj h)
        rw [h1]
      | true =>
        have h := scan_matched_noreject_EOF_stillEOF cfg rt sel rule hbv
          hsel hmr hna hpv
        rw [hscan] at h
        obtain ⟨h1, h2⟩ := Prod.mk.inj (Except.ok.inj h)
        rw [h1]
        simp [reset]
  · intro hmr hne
    have hbv : decide ((rt.source.length : Int) ≤ rt.index) = false :=
      decide_eq_false hne
    rw [hbv] at hsel
    have h := scan_nomatch_notEOF cfg rt sel hbv hsel hmr
    rw [hscan] at h
    obtain ⟨h1, h2⟩ := Prod.mk.inj (Except.ok.inj h)
    rw [h1]
    constructor
    · simp [echo, carryText]
    · simp [echo, carryText]

theorem c3_rejected_set_clearing_witness :
    selStep (decide ((rtRej1.source.length : Int) ≤ rtRej1.index))
        rtRej1.source rtRej1.index rtRej1.rejectedRules
        (lookupRules cfgRej.rules rtRej1.state).enum initSel = .ok initSel ∧
    scan cfgRej rtRej1 = .ok (rtRej2, none) ∧
    ((∀ rule, initSel.matchedRule = some rule →
       ¬ ((matchAdvance (carryText rtRej1 initSel)
            initSel.matchedValue).rejectedRules.length <
          (actApply rule.action
            (matchAdvance (carryText rtRej1 initSel)
              initSel.matchedValue)).1.rejectedRules.length) →
       rtRej2.rejectedRules = []) ∧
     (initSel.matchedRule = none →
       ¬ ((rtRej1.source.length : Int) ≤ rtRej1.index) →
       rtRej2.rejectedRules = rtRej1.rejectedRules ∧
       rtRej2.index = rtRej1.index + 1)) :=
  ⟨rfl, rfl,
    c3_rejected_set_clearing cfgRej rtRej1 rtRej2 none initSel rfl rfl⟩

/-- The driving loop with no rules at all: every pass before EOF takes the
default echo path and consumes one character; the final pass terminates. -/
theorem lexAll_norules_aux (cfg : Config) (hcfg : cfg.rules = []) :
    ∀ (k : Nat) (rt : Runtime) (i : Nat),
      rt.readMore = false → rt.index = (i : Int) →
      rt.source.length = i + k →
      lexAllFuel cfg (k + 1) rt =
        some (.ok ({ initialRuntime with
          output := rt.output ++
            (rt.source.drop i).map (fun c => [c]) }, [])) := by
  intro k
  induction k with
  | zero =>
    intro rt i hrm hidx hlen
    have hrules : lookupRules cfg.rules rt.state = [] := by
      rw [hcfg]; rfl
    have hb : decide ((rt.source.length : Int) ≤ rt.index) = true := by
      rw [hidx, hlen]
      simp
    have hsel : selStep true rt.source rt.index rt.rejectedRules
        (lookupRules cfg.rules rt.state).enum initSel = .ok initSel := by
      rw [hrules]
      rfl
    have hscan := scan_nomatch_EOF cfg rt initSel hb hsel rfl
    have hdrop : rt.source.drop i = [] := by
      have hi : i = rt.source.length := by omega
      rw [hi, List.drop_length]
    simp only [lexAllFuel, hscan, hdrop, List.map_nil, List.append_nil,
      if_true]
    rfl
  | succ k ih =>
    intro rt i hrm hidx hlen
    have hrules : lookupRules cfg.rules rt.state = [] := by
      rw [hcfg]; rfl
    have hb : decide ((rt.source.length : Int) ≤ rt.index) = false := by
      apply decide_eq_false
      rw [hidx, hlen]
      push_cast [Nat.cast_add]
      omega
    have hsel : selStep false rt.source rt.index rt.rejectedRules
        (lookupRules cfg.rules rt.state).enum initSel = .ok initSel := by
      rw [hrules]
      rfl
    have hscan := scan_nomatch_notEOF cfg rt initSel hb hsel rfl
    have hilt : i < rt.source.length := by omega
    have hchar : charAtI rt.source rt.index = [rt.source.getD i ' '] := by
      rw [hidx]
      unfold charAtI
      rw [if_pos]
      · simp
      · refine ⟨by positivity, ?_⟩
        omega
    have hstep : lexAllFuel cfg (k + 1 + 1) rt =
        lexAllFuel cfg (k + 1) (echo { carryText rt initSel with
          text := some ((carryText rt initSel).text.getD undefinedStr ++
                  charAtI (carryText rt initSel).source
                    (carryText rt initSel).index),
          index := (carryText rt initSel).index + 1 }) := by
      simp only [lexAllFuel, hscan]
    rw [hstep]
    have happ := ih (echo { carryText rt initSel with
          text := some ((carryText rt initSel).text.getD undefinedStr ++
                  charAtI (carryText rt initSel).source
                    (carryText rt initSel).index),
          index := (carryText rt initSel).index + 1 }) (i + 1)
      (by simp [echo, carryText])
      (by simp [echo, carryText, hidx])
      (by simp [echo, carryText, hlen]; omega)
    rw [happ]
    have houtput : (echo { carryText rt initSel with
          text := some ((carryText rt initSel).text.getD undefinedStr ++
                  charAtI (carryText rt initSel).source
                    (carryText rt initSel).index),
          index := (carryText rt initSel).index + 1 }).output =
        rt.output ++ [[rt.source.getD i ' ']] := by
      simp [echo, carryText, hrm, hchar]
    have hsrc : (echo { carryText rt initSel with
          text := some ((carryText rt initSel).text.getD undefinedStr ++
                  charAtI (carryText rt initSel).source
                    (carryText rt initSel).index),
          index := (carryText rt initSel).index + 1 }).source = rt.source := by
      simp [echo, carryText]
    rw [houtput, hsrc]
    have hdropstep : rt.source.drop i =
        rt.source.getD i ' ' :: rt.source.drop (i + 1) := by
      rw [List.getD_eq_getElem rt.source ' ' hilt]
      exact List.drop_eq_getElem_cons hilt
    rw [hdropstep]
    simp

/-- C6: on a scanner with no rules configured, `lexAll` over any source
terminates with an empty token list, never errors, and the ECHO sink
receives exactly one single-character string per input character, in
input order. -/
theorem c6_norules_echo (cfg : Config) (src : Str) (hcfg : cfg.rules = []) :
    lexAllFuel cfg (src.length + 1) (setSource src initialRuntime) =
      some (.ok ({ initialRuntime with
        output := src.map (fun c => [c]) }, [])) := by
  have h := lexAll_norules_aux cfg hcfg src.length
    (setSource src initialRuntime) 0 rfl rfl
    (by simp [setSource, initialRuntime])
  simpa [setSource, initialRuntime] using h

theorem c6_norules_echo_witness :
    clearedConfig.rules = [] ∧
    lexAllFuel clearedConfig ("ab".toList.length + 1)
        (setSource "ab".toList initialRuntime) =
      some (.ok ({ initialRuntime with
        output := "ab".toList.map (fun c => [c]) }, [])) :=
  ⟨rfl, c6_norules_echo clearedConfig "ab".toList rfl⟩

theorem scan_error (cfg : Config) (rt : Runtime) (b : Bool) (e : JsErr)
    (hb : decide ((rt.source.length : Int) ≤ rt.index) = b)
    (hsel : selStep b rt.source rt.index rt.rejectedRules
        (lookupRules cfg.rules rt.state).enum initSel = .error e) :
    scan cfg rt = .error e := by
  simp only [scan, hb, hsel]

/-- Where the matched rule and value of the selection result come from:
either they are those of the accumulator, or some rule of the list produced the value
through its matcher. -/
theorem selStep_false_provenance (src : Str) (pos : Int)
    (rej : List (Option Nat)) :
    ∀ (l : List (Nat × Rule)) (acc sel : Sel),
      selStep false src pos rej l acc = .ok sel →
      (sel.matchedRule = acc.matchedRule ∧
       sel.matchedValue = acc.matchedValue) ∨
      ∃ p ∈ l, ∃ m, sel.matchedRule = some p.2 ∧ p.2.expression = some m ∧
        m src pos = some sel.matchedValue := by
  intro l
  induction l with
  | nil =>
    intro acc sel hsel
    rw [selStep_nil] at hsel
    have hacc := Except.ok.inj hsel
    subst hacc
    exact Or.inl ⟨rfl, rfl⟩
  | cons p rest ih =>
    intro acc sel hsel
    obtain ⟨n, r₀⟩ := p
    rw [selStep_cons_false] at hsel
    by_cases hrej : rej.contains (some n) = true
    · rw [if_pos hrej] at hsel
      rcases ih acc sel hsel with h | ⟨q, hq, hm⟩
      · exact Or.inl h
      · exact Or.inr ⟨q, List.mem_cons_of_mem _ hq, hm⟩
    · rw [if_neg hrej] at hsel
      by_cases hgd : (match r₀.fixedWidth with
          | none => true
          | some w => decide (acc.matchedValueLength < w)) = true
      · rw [if_pos hgd] at hsel
        cases hexp : r₀.expression with
        | none =>
          simp only [hexp] at hsel
          exact absurd hsel (by simp)
        | some m =>
          simp only [hexp] at hsel
          cases hmv : m src pos with
          | none =>
            simp only [hmv] at hsel
            rcases ih acc sel hsel with h | ⟨q, hq, hm⟩
            · exact Or.inl h
            · exact Or.inr ⟨q, List.mem_cons_of_mem _ hq, hm⟩
          | some v =>
            simp only [hmv] at hsel
            by_cases hup : acc.matchedValueLength < effLen r₀ v
            · rw [if_pos hup] at hsel
              rcases ih _ sel hsel with ⟨h1, h2⟩ | ⟨q, hq, hm⟩
              · refine Or.inr ⟨(n, r₀), List.mem_cons_self _ _, m, ?_, hexp, ?_⟩
                · rw [h1]
                · rw [h2, hmv]
              · exact Or.inr ⟨q, List.mem_cons_of_mem _ hq, hm⟩
            · rw [if_neg hup] at hsel
              rcases ih acc sel hsel with h | ⟨q, hq, hm⟩
              · exact Or.inl h
              · exact Or.inr ⟨q, List.mem_cons_of_mem _ hq, hm⟩
      · rw [if_neg hgd] at hsel
        rcases ih acc sel hsel with h | ⟨q, hq, hm⟩
        · exact Or.inl h
        · exact Or.inr ⟨q, List.mem_cons_of_mem _ hq, hm⟩

/-- C4: when a scan pass begins at EOF and the selector picks an EOF rule
whose action does not reject, the driver re-evaluates the EOF condition
after the action: if the cursor is still at or past the end, the pass
returns `EOF` (0) and resets the whole runtime, discarding the return
value of the action; if the action refilled the input (brought the cursor back
inside the source via unput/restart), the return value of the action is
returned instead. -/
theorem c4_eof_dispatch (cfg : Config) (rt : Runtime) (sel : Sel) (r : Rule)
    (hEOF : (rt.source.length : Int) ≤ rt.index)
    (hsel : selStep true rt.source rt.index rt.rejectedRules
        (lookupRules cfg.rules rt.state).enum initSel = .ok sel)
    (hr : sel.matchedRule = some r)
    (hna : ¬ ((matchAdvance (carryText rt sel)
        sel.matchedValue).rejectedRules.length <
      (actApply r.action (matchAdvance (carryText rt sel)
        sel.matchedValue)).1.rejectedRules.length)) :
    ((((actApply r.action (matchAdvance (carryText rt sel)
          sel.matchedValue)).1.source.length : Int) ≤
        (actApply r.action (matchAdvance (carryText rt sel)
          sel.matchedValue)).1.index →
      scan cfg rt = .ok (reset { (actApply r.action (matchAdvance
        (carryText rt sel) sel.matchedValue)).1 with rejectedRules := [] },
        some EOFtok)) ∧
     (¬ (((actApply r.action (matchAdvance (carryText rt sel)
          sel.matchedValue)).1.source.length : Int) ≤
        (actApply r.action (matchAdvance (carryText rt sel)
          sel.matchedValue)).1.index) →
      scan cfg rt = .ok ({ (actApply r.action (matchAdvance
        (carryText rt sel) sel.matchedValue)).1 with rejectedRules := [] },
        (actApply r.action (matchAdvance (carryText rt sel)
          sel.matchedValue)).2))) := by
  have hb : decide ((rt.source.length : Int) ≤ rt.index) = true :=
    decide_eq_true hEOF
  constructor
  · intro hpost
    exact scan_matched_noreject_EOF_stillEOF cfg rt sel r hb hsel hr hna
      (decide_eq_true hpost)
  · intro hpost
    exact scan_matched_noreject_EOF_refilled cfg rt sel r hb hsel hr hna
      (decide_eq_false hpost)

theorem c4_eof_dispatch_witness :
    ((rtEOF.source.length : Int) ≤ rtEOF.index) ∧
    selStep true rtEOF.source rtEOF.index rtEOF.rejectedRules
        (lookupRules cfgEOF.rules rtEOF.state).enum initSel = .ok selEOF ∧
    selEOF.matchedRule = some (eofRule (some act7)) ∧
    (¬ ((matchAdvance (carryText rtEOF selEOF)
        selEOF.matchedValue).rejectedRules.length <
      (actApply (eofRule (some act7)).action (matchAdvance (carryText rtEOF
        selEOF) selEOF.matchedValue)).1.rejectedRules.length)) ∧
    scan cfgEOF rtEOF = .ok (reset { (actApply (eofRule (some act7)).action
      (matchAdvance (carryText rtEOF selEOF) selEOF.matchedValue)).1 with
        rejectedRules := [] }, some EOFtok) :=
  ⟨by decide, rfl, rfl, by decide,
    (c4_eof_dispatch cfgEOF rtEOF selEOF (eofRule (some act7)) (by decide)
      rfl rfl (by decide)).1 (by decide)⟩

/-- C2 amended: the cursor invariant `0 ≤ index ≤ |source|` is preserved
by every scan pass that starts WITHOUT a `more()` carry-over (readMore
unset), provided the matchers of the active rules are sound sticky matchers and
the action of the matched rule itself preserves the invariant.  (The claim as
stated is false: a pass that matches a rule after the previous action
called `more()` advances the cursor by the full carried-over text length
and can push `index` beyond `|source|` — see the counterexample.) -/
theorem c2_cursor_invariant (cfg : Config) (rt rt' : Runtime)
    (res : Option Int)
    (hsound : ∀ r ∈ lookupRules cfg.rules rt.state, ∀ m,
        r.expression = some m → MatcherSound m)
    (hact : ∀ r ∈ lookupRules cfg.rules rt.state, ∀ s,
        CursorInv s → CursorInv (actApply r.action s).1)
    (hrm : rt.readMore = false)
    (hinv : CursorInv rt)
    (hscan : scan cfg rt = .ok (rt', res)) :
    CursorInv rt' := by
  obtain ⟨h0, hlen⟩ := hinv
  cases hb : decide ((rt.source.length : Int) ≤ rt.index) with
  | false =>
    have hne : ¬ ((rt.source.length : Int) ≤ rt.index) :=
      of_decide_eq_false hb
    have hlt : rt.index < (rt.source.length : Int) := not_le.mp hne
    cases hq : selStep false rt.source rt.index rt.rejectedRules
        (lookupRules cfg.rules rt.state).enum initSel with
    | error e =>
      rw [scan_error cfg rt false e hb hq] at hscan
      exact absurd hscan (by simp)
    | ok sel =>
      cases hmr : sel.matchedRule with
      | none =>
        have h := scan_nomatch_notEOF cfg rt sel hb hq hmr
        rw [hscan] at h
        obtain ⟨h1, h2⟩ := Prod.mk.inj (Except.ok.inj h)
        rw [h1]
        constructor
        · simp [echo, carryText]
          omega
        · simp [echo, carryText]
          omega
      | some rule =>
        rcases selStep_false_provenance rt.source rt.index rt.rejectedRules
            _ initSel sel hq with ⟨hpr, _⟩ | ⟨p, hp, m, hpr, hexp, hmv⟩
        · rw [hmr] at hpr
          exact absurd hpr (by simp [initSel])
        · have hrule : rule = p.2 := by
            rw [hmr] at hpr
            exact Option.some.inj hpr
          subst hrule
          have hmem : p.2 ∈ lookupRules cfg.rules rt.state :=
            snd_mem_of_mem_enum _ p hp
          have hms : MatcherSound m := hsound p.2 hmem m hexp
          have hfit : rt.index + (sel.matchedValue.length : Int) ≤
              (rt.source.length : Int) := hms rt.source rt.index
            sel.matchedValue h0 hmv
          have hinvPre : CursorInv (matchAdvance (carryText rt sel)
              sel.matchedValue) := by
            constructor
            · simp [matchAdvance, carryText, hrm]
              omega
            · simp [matchAdvance, carryText, hrm]
              omega
          have hinvA := hact p.2 hmem _ hinvPre
          by_cases hrej : (matchAdvance (carryText rt sel)
              sel.matchedValue).rejectedRules.length <
              (actApply p.2.action (matchAdvance (carryText rt sel)
                sel.matchedValue)).1.rejectedRules.length
          · have h := scan_matched_rejected cfg rt sel p.2 false hb hq
              hmr hrej
            rw [hscan] at h
            obtain ⟨h1, h2⟩ := Prod.mk.inj (Except.ok.inj h)
            rw [h1]
            exact hinvA
          · have h := scan_matched_noreject_notEOF cfg rt sel p.2 hb hq
              hmr hrej
            rw [hscan] at h
            obtain ⟨h1, h2⟩ := Prod.mk.inj (Except.ok.inj h)
            rw [h1]
            obtain ⟨g0, g1⟩ := hinvA
            exact ⟨g0, g1⟩
  | true =>
    cases hq : selStep true rt.source rt.index rt.rejectedRules
        (lookupRules cfg.rules rt.state).enum initSel with
    | error e =>
      rw [scan_error cfg rt true e hb hq] at hscan
      exact absurd hscan (by simp)
    | ok sel =>
      cases hmr : sel.matchedRule with
      | none =>
        have h := scan_nomatch_EOF cfg rt sel hb hq hmr
        rw [hscan] at h
        obtain ⟨h1, h2⟩ := Prod.mk.inj (Except.ok.inj h)
        rw [h1]
        exact ⟨le_refl 0, by simp [reset]⟩
      | some rule =>
        rcases selStep_true_cases rt.source rt.index rt.rejectedRules
            _ initSel sel hq with hform | ⟨p, hp, hpe, hform⟩
        · rw [hform] at hmr
          exact absurd hmr (by simp [initSel])
        · have hval : sel.matchedValue = [] := by
            rw [hform]
          have hrule : rule = p.2 := by
            rw [hform] at hmr
            exact (Option.some.inj hmr).symm
          subst hrule
          have hmem : p.2 ∈ lookupRules cfg.rules rt.state :=
            snd_mem_of_mem_enum _ p hp
          have hinvPre : CursorInv (matchAdvance (carryText rt sel)
              sel.matchedValue) := by
            rw [hval]
            constructor
            · simp [matchAdvance, carryText, hrm]
              omega
            · simp [matchAdvance, carryText, hrm]
              omega
          have hinvA := hact p.2 hmem _ hinvPre
          by_cases hrej : (matchAdvance (carryText rt sel)
              sel.matchedValue).rejectedRules.length <
              (actApply p.2.action (matchAdvance (carryText rt sel)
                sel.matchedValue)).1.rejectedRules.length
          · have h := scan_matched_rejected cfg rt sel p.2 true hb hq
              hmr hrej
            rw [hscan] at h
            obtain ⟨h1, h2⟩ := Prod.mk.inj (Except.ok.inj h)
            rw [h1]
            exact hinvA
          · cases hpost : decide (((actApply p.2.action (matchAdvance
                (carryText rt sel) sel.matchedValue)).1.source.length : Int) ≤
                (actApply p.2.action (matchAdvance (carryText rt sel)
                  sel.matchedValue)).1.index) with
            | true =>
              have h := scan_matched_noreject_EOF_stillEOF cfg rt sel p.2
                hb hq hmr hrej hpost
              rw [hscan] at h
              obtain ⟨h1, h2⟩ := Prod.mk.inj (Except.ok.inj h)
              rw [h1]
              exact ⟨le_refl 0, by simp [reset]⟩
            | false =>
              have h := scan_matched_noreject_EOF_refilled cfg rt sel p.2
                hb hq hmr hrej hpost
              rw [hscan] at h
              obtain ⟨h1, h2⟩ := Prod.mk.inj (Except.ok.inj h)
              rw [h1]
              obtain ⟨g0, g1⟩ := hinvA
              exact ⟨g0, g1⟩

theorem c2_cursor_invariant_witness :
    (∀ r ∈ lookupRules cfgC2.rules rtC2.state, ∀ m,
        r.expression = some m → MatcherSound m) ∧
    (∀ r ∈ lookupRules cfgC2.rules rtC2.state, ∀ s,
        CursorInv s → CursorInv (actApply r.action s).1) ∧
    rtC2.readMore = false ∧ CursorInv rtC2 ∧
    scan cfgC2 rtC2 = .ok (rtC2out, none) ∧ CursorInv rtC2out := by
  have hsound : ∀ r ∈ lookupRules cfgC2.rules rtC2.state, ∀ m,
      r.expression = some m → MatcherSound m := by
    intro r hr m hm
    replace hr : r ∈ [litRule "a".toList none] := hr
    have hre := List.mem_singleton.mp hr
    subst hre
    have hmm : m = litM "a".toList := by
      simp only [litRule, Option.some.injEq] at hm
      exact hm.symm
    subst hmm
    exact litM_sound _
  have hact : ∀ r ∈ lookupRules cfgC2.rules rtC2.state, ∀ s,
      CursorInv s → CursorInv (actApply r.action s).1 := by
    intro r hr s hs
    replace hr : r ∈ [litRule "a".toList none] := hr
    have hre := List.mem_singleton.mp hr
    subst hre
    exact hs
  have hinv : CursorInv rtC2 := ⟨by decide, by decide⟩
  exact ⟨hsound, hact, rfl, hinv, rfl,
    c2_cursor_invariant cfgC2 rtC2 rtC2out none hsound hact rfl hinv rfl⟩

end FlexJS
